import Mathlib

/-!
Verification of the Automated Resume Screener core against its specification.

The Python sources are shallowly embedded:
- numeric scores (Python floats holding small decimal fractions) are modelled as rationals;
- Python datetime values (used only at date granularity here) are modelled by a
  year/month/day record with the lexicographic comparison datetime uses, and day
  arithmetic via a days-from-civil conversion;
- Python strings/sets/dicts are modelled as Lean strings, deduplicated lists and
  association lists;
- external libraries (sklearn vectorizer/PCA/KMeans/cosine, dateutil parser) are
  modelled as oracle parameters: the embedded code is exactly the repository code
  around those calls.
-/

/-! ## Basic utilities -/

/-- Python clamp idiom used throughout scoring: max(0.0, min(1.0, x)). -/
def clamp01 (x : ℚ) : ℚ := max 0 (min 1 x)

/-- ASCII lowercase of a string, modelling Python str.lower on the ASCII texts used here. -/
def lowerS (s : String) : String := ⟨s.data.map Char.toLower⟩

/-- Substring occurrence on char lists (Python infix membership on str). -/
def hasSub (needle : List Char) : List Char → Bool
  | [] => needle.isEmpty
  | c :: t => needle.isPrefixOf (c :: t) || hasSub needle t

/-- Python substring test: needle in hay. -/
def strContains (hay needle : String) : Bool := hasSub needle.data hay.data

/-! ## Dates (services/analysis.py date utilities)

A Python datetime at midnight is modelled by its (year, month, day) triple.
Comparison of datetimes is lexicographic on the components; subtraction and
timedelta addition act on the day-number timeline, computed by the standard
days-from-civil conversion. -/

/-- Model of a Python datetime date (time-of-day is never used by the analyzer). -/
structure Dt where
  year : ℤ
  month : ℤ
  day : ℤ
deriving DecidableEq, Repr

/-- Lexicographic order on datetimes (Python datetime comparison). -/
def Dt.le (a b : Dt) : Prop :=
  a.year < b.year ∨ (a.year = b.year ∧
    (a.month < b.month ∨ (a.month = b.month ∧ a.day ≤ b.day)))

/-- Strict lexicographic order on datetimes. -/
def Dt.lt (a b : Dt) : Prop :=
  a.year < b.year ∨ (a.year = b.year ∧
    (a.month < b.month ∨ (a.month = b.month ∧ a.day < b.day)))

instance (a b : Dt) : Decidable (Dt.le a b) := by unfold Dt.le; exact inferInstance

instance (a b : Dt) : Decidable (Dt.lt a b) := by unfold Dt.lt; exact inferInstance

/-- Day number of a civil date (standard days-from-civil algorithm; the epoch
constant is irrelevant since only differences are used). -/
def Dt.toDays (a : Dt) : ℤ :=
  let y : ℤ := if a.month ≤ 2 then a.year - 1 else a.year
  let era : ℤ := (if 0 ≤ y then y else y - 399) / 400
  let yoe : ℤ := y - era * 400
  let mp : ℤ := (a.month + 9) % 12
  let doy : ℤ := (153 * mp + 2) / 5 + a.day - 1
  let doe : ℤ := yoe * 365 + yoe / 4 - yoe / 100 + doy
  era * 146097 + doe - 719468

/-- Python min of two datetimes (first argument wins ties). -/
def Dt.minD (a b : Dt) : Dt := if Dt.le a b then a else b

/-! ## services/analysis.py: _months_between, _merge_intervals,
_calc_total_experience_months, _find_gaps, _detect_overlaps -/

/-- Embeds _months_between: approximate month difference including partial
months; swaps its arguments when given in decreasing order, never negative. -/
def _months_between (a b : Dt) : ℚ :=
  let p : Dt × Dt := if Dt.lt b a then (b, a) else (a, b)
  let lo := p.1
  let hi := p.2
  max 0 (((hi.year - lo.year : ℤ) : ℚ) * 12 + ((hi.month - lo.month : ℤ) : ℚ)
    + ((hi.day - lo.day : ℤ) : ℚ) / 30)

/-- Loop body of _merge_intervals: current run (cur_s, cur_e) absorbs the next
interval when its start does not exceed cur_e, else the run is emitted. -/
def mergeGo (cur_s cur_e : Dt) : List (Dt × Dt) → List (Dt × Dt)
  | [] => [(cur_s, cur_e)]
  | (s, e) :: rest =>
    if Dt.le s cur_e then
      mergeGo cur_s (if Dt.lt cur_e e then e else cur_e) rest
    else
      (cur_s, cur_e) :: mergeGo s e rest

/-- Embeds _merge_intervals. -/
def _merge_intervals : List (Dt × Dt) → List (Dt × Dt)
  | [] => []
  | (s, e) :: rest => mergeGo s e rest

/-- Embeds _calc_total_experience_months: total tenure of the merged runs. -/
def _calc_total_experience_months (norm : List (Dt × Dt)) : ℚ :=
  ((_merge_intervals norm).map fun p => _months_between p.1 p.2).sum

/-- Gap record produced by _find_gaps; the Python dict carries the two boundary
dates (rendered in ISO form, modelled here by the dates themselves) and the day
count. The end field of the dict is named stop here (end is a Lean keyword). -/
structure GapRec where
  start : Dt
  stop : Dt
  days : ℤ
deriving DecidableEq, Repr

/-- Embeds _find_gaps: gaps greater than 92 days between consecutive intervals. -/
def _find_gaps (norm : List (Dt × Dt)) : List GapRec :=
  if norm.length < 2 then []
  else (norm.zip norm.tail).filterMap fun pc =>
    let delta := pc.2.1.toDays - pc.1.2.toDays
    if 92 < delta then some ⟨pc.1.2, pc.2.1, delta⟩ else none

/-- Overlap record produced by _detect_overlaps (the end field is named stop). -/
structure OverlapRec where
  start : Dt
  stop : Dt
  days : ℤ
deriving DecidableEq, Repr

/-- Embeds _detect_overlaps: overlap when the current start plus the 30-day
tolerance still precedes the previous end; window is next start to the earlier
of the two ends. -/
def _detect_overlaps (norm : List (Dt × Dt)) : List OverlapRec :=
  if norm.length < 2 then []
  else (norm.zip norm.tail).filterMap fun pc =>
    let cur_s := pc.2.1
    let cur_e := pc.2.2
    let prev_e := pc.1.2
    if cur_s.toDays + 30 < prev_e.toDays then
      let e := Dt.minD prev_e cur_e
      some ⟨cur_s, e, e.toDays - cur_s.toDays⟩
    else none

/-! Specification-side reformulations used to state C4 and C5: the produced
records are exactly those of the consecutive pairs passing the threshold test. -/

/-- Day distance from the previous end to the next start of a consecutive pair. -/
def gapDayDist (pc : (Dt × Dt) × (Dt × Dt)) : ℤ := pc.2.1.toDays - pc.1.2.toDays

/-- The gap record a consecutive pair would produce. -/
def gapRecOf (pc : (Dt × Dt) × (Dt × Dt)) : GapRec :=
  ⟨pc.1.2, pc.2.1, gapDayDist pc⟩

/-- By how many days the next start precedes the previous end. -/
def overlapLead (pc : (Dt × Dt) × (Dt × Dt)) : ℤ := pc.1.2.toDays - pc.2.1.toDays

/-- The overlap record a consecutive pair would produce: window from the next
start to the earlier of the two ends. -/
def overlapRecOf (pc : (Dt × Dt) × (Dt × Dt)) : OverlapRec :=
  ⟨pc.2.1, Dt.minD pc.1.2 pc.2.2, (Dt.minD pc.1.2 pc.2.2).toDays - pc.2.1.toDays⟩

lemma filterMap_if_eq_map_filter {α β : Type} (p : α → Prop) [DecidablePred p]
    (g : α → β) (l : List α) :
    (l.filterMap fun a => if p a then some (g a) else none)
      = (l.filter fun a => decide (p a)).map g := by
  induction l with
  | nil => rfl
  | cons a t ih =>
    by_cases h : p a
    · simp [List.filterMap_cons, List.filter_cons, h, ih]
    · simp [List.filterMap_cons, List.filter_cons, h, ih]

/-- C4: on the sorted, short-filtered but unmerged interval list, a gap record
(carrying both boundary dates and the day count) is produced between two
consecutive intervals exactly when the day distance from the previous end to the
next start exceeds 92 days; concretely, [Jan2020,Jun2020],[Oct2020,Dec2020]
yields exactly one gap (122 days) and [Jan2020,Jun2020],[Jul2020,Dec2020]
yields zero gaps. -/
theorem gaps_iff_over_92_days :
    (∀ norm : List (Dt × Dt),
      _find_gaps norm
        = ((norm.zip norm.tail).filter fun pc => 92 < gapDayDist pc).map gapRecOf)
    ∧ _find_gaps [(⟨2020,1,1⟩, ⟨2020,6,1⟩), (⟨2020,10,1⟩, ⟨2020,12,1⟩)]
        = [⟨⟨2020,6,1⟩, ⟨2020,10,1⟩, 122⟩]
    ∧ _find_gaps [(⟨2020,1,1⟩, ⟨2020,6,1⟩), (⟨2020,7,1⟩, ⟨2020,12,1⟩)] = [] := by
  refine ⟨fun norm => ?_, by decide, by decide⟩
  unfold _find_gaps
  by_cases h : norm.length < 2
  · rw [if_pos h]
    rcases norm with _ | ⟨a, _ | ⟨b, t⟩⟩
    · rfl
    · rfl
    · exact absurd h (by simp)
  · rw [if_neg h]
    calc ((norm.zip norm.tail).filterMap fun pc =>
            if 92 < pc.2.1.toDays - pc.1.2.toDays then
              some (⟨pc.1.2, pc.2.1, pc.2.1.toDays - pc.1.2.toDays⟩ : GapRec)
            else none)
        = (norm.zip norm.tail).filterMap fun pc =>
            if 92 < gapDayDist pc then some (gapRecOf pc) else none := by
          apply List.filterMap_congr
          intro pc _
          rfl
      _ = ((norm.zip norm.tail).filter fun pc => 92 < gapDayDist pc).map gapRecOf :=
          filterMap_if_eq_map_filter (fun pc => 92 < gapDayDist pc) gapRecOf _

/-- C5: on the sorted, short-filtered but unmerged interval list, an overlap
record is produced between two consecutive intervals exactly when the next
start precedes the previous end by more than 30 days, and the recorded window
runs from the next start to the earlier of the two ends; concretely,
[Jan2020,Dec2020] with [Jun2020,Aug2021] yields exactly one overlap spanning
Jun 2020 to Dec 2020. -/
theorem overlaps_iff_over_30_days :
    (∀ norm : List (Dt × Dt),
      _detect_overlaps norm
        = ((norm.zip norm.tail).filter fun pc => 30 < overlapLead pc).map overlapRecOf)
    ∧ _detect_overlaps [(⟨2020,1,1⟩, ⟨2020,12,1⟩), (⟨2020,6,1⟩, ⟨2021,8,1⟩)]
        = [⟨⟨2020,6,1⟩, ⟨2020,12,1⟩, 183⟩] := by
  refine ⟨fun norm => ?_, by decide⟩
  unfold _detect_overlaps
  by_cases h : norm.length < 2
  · rw [if_pos h]
    rcases norm with _ | ⟨a, _ | ⟨b, t⟩⟩
    · rfl
    · rfl
    · exact absurd h (by simp)
  · rw [if_neg h]
    have : ∀ pc : (Dt × Dt) × (Dt × Dt),
        (pc.2.1.toDays + 30 < pc.1.2.toDays) ↔ (30 < overlapLead pc) := by
      intro pc; unfold overlapLead; omega
    calc ((norm.zip norm.tail).filterMap fun pc =>
            if pc.2.1.toDays + 30 < pc.1.2.toDays then
              some (⟨pc.2.1, Dt.minD pc.1.2 pc.2.2,
                (Dt.minD pc.1.2 pc.2.2).toDays - pc.2.1.toDays⟩ : OverlapRec)
            else none)
        = (norm.zip norm.tail).filterMap fun pc =>
            if 30 < overlapLead pc then some (overlapRecOf pc) else none := by
          apply List.filterMap_congr
          intro pc _
          by_cases h2 : 30 < overlapLead pc
          · rw [if_pos ((this pc).mpr h2), if_pos h2]; rfl
          · rw [if_neg (fun hc => h2 ((this pc).mp hc)), if_neg h2]
      _ = ((norm.zip norm.tail).filter fun pc => 30 < overlapLead pc).map overlapRecOf :=
          filterMap_if_eq_map_filter (fun pc => 30 < overlapLead pc) overlapRecOf _

/-! ## C6: bounds on the merged total tenure

On valid calendar dates the lexicographic datetime order agrees with the
timeline, and the month measure of _months_between is the difference of a
monotone potential (12*year + month + day/30). -/

/-- A calendar-valid date: month in 1..12 and day in 1..31. All datetimes built
by the analyzer (dateutil output) satisfy this. -/
def Dt.Valid (a : Dt) : Prop :=
  1 ≤ a.month ∧ a.month ≤ 12 ∧ 1 ≤ a.day ∧ a.day ≤ 31

instance (a : Dt) : Decidable a.Valid := by unfold Dt.Valid; exact inferInstance

/-- The month potential: _months_between of an ordered valid pair is the
difference of this value. -/
def Dt.monthsVal (a : Dt) : ℚ :=
  12 * (a.year : ℚ) + (a.month : ℚ) + (a.day : ℚ) / 30

lemma Dt.le_refl (a : Dt) : Dt.le a a := by unfold Dt.le; omega

lemma Dt.le_trans {a b c : Dt} (h1 : Dt.le a b) (h2 : Dt.le b c) : Dt.le a c := by
  unfold Dt.le at *; omega

lemma Dt.lt_le {a b : Dt} (h : Dt.lt a b) : Dt.le a b := by
  unfold Dt.lt at h; unfold Dt.le; omega

lemma Dt.not_lt_of_le {a b : Dt} (h : Dt.le a b) : ¬ Dt.lt b a := by
  unfold Dt.le at h; unfold Dt.lt; omega

lemma Dt.le_of_not_lt {a b : Dt} (h : ¬ Dt.lt b a) : Dt.le a b := by
  unfold Dt.lt at h; unfold Dt.le; omega


lemma Dt.monthsVal_mono {a b : Dt} (ha : a.Valid) (hb : b.Valid) (h : Dt.le a b) :
    a.monthsVal ≤ b.monthsVal := by
  obtain ⟨ham1, ham2, had1, had2⟩ := ha
  obtain ⟨hbm1, hbm2, hbd1, hbd2⟩ := hb
  unfold Dt.monthsVal
  have cam2 : (a.month : ℚ) ≤ 12 := by exact_mod_cast ham2
  have cam1 : (1 : ℚ) ≤ (a.month : ℚ) := by exact_mod_cast ham1
  have cad2 : (a.day : ℚ) ≤ 31 := by exact_mod_cast had2
  have cad1 : (1 : ℚ) ≤ (a.day : ℚ) := by exact_mod_cast had1
  have cbm1 : (1 : ℚ) ≤ (b.month : ℚ) := by exact_mod_cast hbm1
  have cbm2 : (b.month : ℚ) ≤ 12 := by exact_mod_cast hbm2
  have cbd1 : (1 : ℚ) ≤ (b.day : ℚ) := by exact_mod_cast hbd1
  have cbd2 : (b.day : ℚ) ≤ 31 := by exact_mod_cast hbd2
  rcases h with hy | ⟨hy, hm | ⟨hm, hd⟩⟩
  · have h1 : (a.year : ℚ) + 1 ≤ (b.year : ℚ) := by exact_mod_cast by omega
    linarith
  · have h1 : (a.year : ℚ) = (b.year : ℚ) := by exact_mod_cast hy
    have h2 : (a.month : ℚ) + 1 ≤ (b.month : ℚ) := by exact_mod_cast by omega
    linarith
  · have h1 : (a.year : ℚ) = (b.year : ℚ) := by exact_mod_cast hy
    have h2 : (a.month : ℚ) = (b.month : ℚ) := by exact_mod_cast hm
    have h3 : (a.day : ℚ) ≤ (b.day : ℚ) := by exact_mod_cast hd
    linarith

lemma months_between_nonneg (a b : Dt) : 0 ≤ _months_between a b := le_max_left _ _

lemma months_between_eq {a b : Dt} (ha : a.Valid) (hb : b.Valid) (h : Dt.le a b) :
    _months_between a b = b.monthsVal - a.monthsVal := by
  have hmono := Dt.monthsVal_mono ha hb h
  unfold _months_between
  rw [if_neg (Dt.not_lt_of_le h)]
  show max 0 (((b.year - a.year : ℤ) : ℚ) * 12 + ((b.month - a.month : ℤ) : ℚ)
      + ((b.day - a.day : ℤ) : ℚ) / 30) = b.monthsVal - a.monthsVal
  have hval : ((b.year - a.year : ℤ) : ℚ) * 12 + ((b.month - a.month : ℤ) : ℚ)
      + ((b.day - a.day : ℤ) : ℚ) / 30 = b.monthsVal - a.monthsVal := by
    unfold Dt.monthsVal; push_cast; ring
  rw [hval, max_eq_right (by linarith)]

/-- Tenure of one interval. -/
def tlen (p : Dt × Dt) : ℚ := _months_between p.1 p.2

/-- Total tenure of an interval list. -/
def totalOf (l : List (Dt × Dt)) : ℚ := (l.map tlen).sum

lemma totalOf_nonneg (l : List (Dt × Dt)) : 0 ≤ totalOf l := by
  unfold totalOf
  induction l with
  | nil => simp
  | cons p t ih => simpa using add_nonneg (months_between_nonneg p.1 p.2) ih

/-- Every pair of the list is a valid interval: valid endpoints in order. -/
def ValidIvs (l : List (Dt × Dt)) : Prop :=
  ∀ p ∈ l, p.1.Valid ∧ p.2.Valid ∧ Dt.le p.1 p.2

instance (l : List (Dt × Dt)) : Decidable (ValidIvs l) := by
  unfold ValidIvs; exact List.decidableBAll _ l

lemma mergeGo_total_le (rest : List (Dt × Dt)) (cur_s cur_e : Dt)
    (hs : cur_s.Valid) (he : cur_e.Valid) (hse : Dt.le cur_s cur_e)
    (hv : ValidIvs rest) :
    totalOf (mergeGo cur_s cur_e rest) ≤ _months_between cur_s cur_e + totalOf rest := by
  induction rest generalizing cur_s cur_e with
  | nil => simp [mergeGo, totalOf, tlen]
  | cons p t ih =>
    obtain ⟨s, e⟩ := p
    obtain ⟨hvs, hve, hvse⟩ := hv (s, e) (List.mem_cons_self _ _)
    have hvt : ValidIvs t := fun q hq => hv q (List.mem_cons_of_mem _ hq)
    show totalOf (mergeGo cur_s cur_e ((s, e) :: t)) ≤ _
    rw [mergeGo]
    by_cases h1 : Dt.le s cur_e
    · rw [if_pos h1]
      by_cases h2 : Dt.lt cur_e e
      · rw [if_pos h2]
        have hce : Dt.le cur_s e := Dt.le_trans hse (Dt.lt_le h2)
        have := ih cur_s e hs hve hce hvt
        have hkey : _months_between cur_s e
            ≤ _months_between cur_s cur_e + _months_between s e := by
          rw [months_between_eq hs hve hce, months_between_eq hs he hse,
            months_between_eq hvs hve hvse]
          have := Dt.monthsVal_mono hvs he h1
          linarith
        have hsum : totalOf ((s, e) :: t)
            = _months_between s e + totalOf t := by simp [totalOf, tlen]
        rw [hsum]; linarith
      · rw [if_neg h2]
        have := ih cur_s cur_e hs he hse hvt
        have hsum : totalOf ((s, e) :: t)
            = _months_between s e + totalOf t := by simp [totalOf, tlen]
        have := months_between_nonneg s e
        rw [hsum]; linarith
    · rw [if_neg h1]
      have := ih s e hvs hve hvse hvt
      have hsum : totalOf ((s, e) :: t)
          = _months_between s e + totalOf t := by simp [totalOf, tlen]
      have hcons : totalOf ((cur_s, cur_e) :: mergeGo s e t)
          = _months_between cur_s cur_e + totalOf (mergeGo s e t) := by
        simp [totalOf, tlen]
      rw [hcons, hsum]; linarith

lemma mergeGo_total_ge (rest : List (Dt × Dt)) (cur_s cur_e : Dt)
    (hs : cur_s.Valid) (he : cur_e.Valid) (hse : Dt.le cur_s cur_e)
    (hv : ValidIvs rest)
    (hstart : ∀ p ∈ rest, Dt.le cur_s p.1)
    (hsorted : rest.Pairwise (fun p q => Dt.le p.1 q.1)) :
    ∀ x ∈ (cur_s, cur_e) :: rest, tlen x ≤ totalOf (mergeGo cur_s cur_e rest) := by
  induction rest generalizing cur_s cur_e with
  | nil =>
    intro x hx
    rcases List.mem_singleton.mp hx with rfl
    simp [mergeGo, totalOf, tlen]
  | cons p t ih =>
    intro x hx
    obtain ⟨s, e⟩ := p
    obtain ⟨hvs, hve, hvse⟩ := hv (s, e) (List.mem_cons_self _ _)
    have hvt : ValidIvs t := fun q hq => hv q (List.mem_cons_of_mem _ hq)
    have hst : ∀ q ∈ t, Dt.le s q.1 := fun q hq =>
      (List.pairwise_cons.mp hsorted).1 q hq
    have hsort_t : t.Pairwise (fun p q => Dt.le p.1 q.1) :=
      (List.pairwise_cons.mp hsorted).2
    have hcs : Dt.le cur_s s := hstart (s, e) (List.mem_cons_self _ _)
    rw [mergeGo]
    by_cases h1 : Dt.le s cur_e
    · rw [if_pos h1]
      by_cases h2 : Dt.lt cur_e e
      · rw [if_pos h2]
        have hce : Dt.le cur_s e := Dt.le_trans hse (Dt.lt_le h2)
        have hstart' : ∀ q ∈ t, Dt.le cur_s q.1 := fun q hq =>
          Dt.le_trans hcs (hst q hq)
        have happ := ih cur_s e hs hve hce hvt hstart' hsort_t
        rcases List.mem_cons.mp hx with rfl | hx
        · have h3 : tlen (cur_s, cur_e) ≤ tlen (cur_s, e) := by
            unfold tlen
            show _months_between cur_s cur_e ≤ _months_between cur_s e
            rw [months_between_eq hs he hse, months_between_eq hs hve hce]
            have := Dt.monthsVal_mono he hve (Dt.lt_le h2)
            linarith
          exact h3.trans (happ (cur_s, e) (List.mem_cons_self _ _))
        · rcases List.mem_cons.mp hx with rfl | hx
          · have h3 : tlen (s, e) ≤ tlen (cur_s, e) := by
              unfold tlen
              show _months_between s e ≤ _months_between cur_s e
              rw [months_between_eq hvs hve hvse, months_between_eq hs hve hce]
              have := Dt.monthsVal_mono hs hvs hcs
              linarith
            exact h3.trans (happ (cur_s, e) (List.mem_cons_self _ _))
          · exact happ x (List.mem_cons_of_mem _ hx)
      · rw [if_neg h2]
        have hee : Dt.le e cur_e := Dt.le_of_not_lt h2
        have hstart' : ∀ q ∈ t, Dt.le cur_s q.1 := fun q hq =>
          Dt.le_trans hcs (hst q hq)
        have happ := ih cur_s cur_e hs he hse hvt hstart' hsort_t
        rcases List.mem_cons.mp hx with rfl | hx
        · exact happ (cur_s, cur_e) (List.mem_cons_self _ _)
        · rcases List.mem_cons.mp hx with rfl | hx
          · have h3 : tlen (s, e) ≤ tlen (cur_s, cur_e) := by
              unfold tlen
              show _months_between s e ≤ _months_between cur_s cur_e
              rw [months_between_eq hvs hve hvse, months_between_eq hs he hse]
              have := Dt.monthsVal_mono hs hvs hcs
              have := Dt.monthsVal_mono hve he hee
              linarith
            exact h3.trans (happ (cur_s, cur_e) (List.mem_cons_self _ _))
          · exact happ x (List.mem_cons_of_mem _ hx)
    · rw [if_neg h1]
      have happ := ih s e hvs hve hvse hvt hst hsort_t
      have hcons : totalOf ((cur_s, cur_e) :: mergeGo s e t)
          = _months_between cur_s cur_e + totalOf (mergeGo s e t) := by
        simp [totalOf, tlen]
      rcases List.mem_cons.mp hx with rfl | hx
      · rw [hcons]
        have := totalOf_nonneg (mergeGo s e t)
        show _months_between cur_s cur_e ≤ _
        linarith
      · have h3 := happ x hx
        rw [hcons]
        have := months_between_nonneg cur_s cur_e
        linarith

/-- C6: for every list of valid intervals sorted by start with start at most
end, the total tenure computed from the merged runs is at least the tenure of
any single input interval (hence of the longest) and at most the sum of the
tenures of all input intervals, under the month-difference measure. -/
theorem merged_tenure_bounds (norm : List (Dt × Dt))
    (hv : ValidIvs norm)
    (hsorted : norm.Pairwise (fun p q => Dt.le p.1 q.1)) :
    (∀ p ∈ norm, _months_between p.1 p.2 ≤ _calc_total_experience_months norm)
    ∧ _calc_total_experience_months norm
        ≤ (norm.map fun p => _months_between p.1 p.2).sum := by
  have hcalc : _calc_total_experience_months norm = totalOf (_merge_intervals norm) := by
    unfold _calc_total_experience_months totalOf tlen; rfl
  have hsum : (norm.map fun p => _months_between p.1 p.2).sum = totalOf norm := by
    unfold totalOf tlen; rfl
  rw [hcalc, hsum]
  rcases norm with _ | ⟨⟨s, e⟩, rest⟩
  · exact ⟨(fun p hp => nomatch hp), totalOf_nonneg _⟩
  · obtain ⟨hvs, hve, hvse⟩ := hv (s, e) (List.mem_cons_self _ _)
    have hvt : ValidIvs rest := fun q hq => hv q (List.mem_cons_of_mem _ hq)
    have hst : ∀ q ∈ rest, Dt.le s q.1 := fun q hq =>
      (List.pairwise_cons.mp hsorted).1 q hq
    have hsort_t : rest.Pairwise (fun p q => Dt.le p.1 q.1) :=
      (List.pairwise_cons.mp hsorted).2
    constructor
    · intro p hp
      exact mergeGo_total_ge rest s e hvs hve hvse hvt hst hsort_t p hp
    · have h1 := mergeGo_total_le rest s e hvs hve hvse hvt
      have h2 : totalOf ((s, e) :: rest) = _months_between s e + totalOf rest := by
        simp [totalOf, tlen]
      rw [show _merge_intervals ((s, e) :: rest) = mergeGo s e rest from rfl, h2]
      linarith

/-- Concrete interval list for the C6 witness. -/
def c6list : List (Dt × Dt) :=
  [(⟨2020,1,1⟩, ⟨2020,6,1⟩), (⟨2020,4,1⟩, ⟨2020,12,1⟩)]

lemma c6list_sorted : c6list.Pairwise (fun p q => Dt.le p.1 q.1) := by
  unfold c6list
  refine List.pairwise_cons.mpr ⟨?_, List.pairwise_singleton _ _⟩
  intro q hq
  rcases List.mem_singleton.mp hq with rfl
  decide

/-- Witness for C6 at a concrete overlapping pair of valid sorted intervals. -/
theorem merged_tenure_bounds_witness :
    (ValidIvs c6list ∧ c6list.Pairwise (fun p q => Dt.le p.1 q.1))
    ∧ ((∀ p ∈ c6list,
          _months_between p.1 p.2 ≤ _calc_total_experience_months c6list)
        ∧ _calc_total_experience_months c6list
            ≤ (c6list.map fun p => _months_between p.1 p.2).sum) :=
  ⟨⟨by decide, c6list_sorted⟩, merged_tenure_bounds c6list (by decide) c6list_sorted⟩

/-! ## services/scoring.py: the Scoring Engine

The TF-IDF vectorizer and cosine similarity are external (sklearn); following
the source, which defaults semantic scores to zeros on vectorization failure
and to 0.0 for out-of-range indices, the per-candidate semantic scores enter
the embedding as an explicit list parameter. Fields that the source rounds
purely for display (hard/nice coverage, consistency) are kept unrounded; the
rounded copies are not used in any scoring arithmetic. The human-readable
explain trail (string formatting) is not modelled. -/

/-- Embeds _lower_set: the set of lowercased items (first-occurrence dedup). -/
def lowerSet (items : List String) : List String := (items.map lowerS).dedup

/-- Embeds the default TREND_WEIGHTS table (no data/skill_trends.json override
file exists in the repository, so the defaults are in force). -/
def TREND_WEIGHTS : List (String × ℚ) :=
  [("aws", 1.0), ("azure", 0.9), ("gcp", 0.9), ("docker", 0.9), ("kubernetes", 1.0),
   ("terraform", 0.9), ("ci/cd", 0.8), ("github actions", 0.6), ("gitlab ci", 0.6),
   ("kafka", 0.9), ("airflow", 0.8), ("spark", 0.9), ("databricks", 0.9),
   ("snowflake", 0.9), ("dbt", 0.8),
   ("pytorch", 0.9), ("tensorflow", 0.9), ("transformers", 0.9), ("mlops", 0.9),
   ("mlflow", 0.8), ("llm", 1.0), ("langchain", 0.8), ("vector db", 0.7),
   ("faiss", 0.7), ("weaviate", 0.7), ("pinecone", 0.7),
   ("go", 0.8), ("golang", 0.8), ("rust", 0.9), ("fastapi", 0.8), ("grpc", 0.8),
   ("typescript", 0.9), ("react", 0.8), ("next.js", 0.8), ("nextjs", 0.8),
   ("opentelemetry", 0.8), ("prometheus", 0.7), ("grafana", 0.7),
   ("ansible", 0.7), ("vault", 0.6), ("k9s", 0.4)]

/-- Embeds TREND_TOTAL = max(1e-6, sum of all weights). -/
def TREND_TOTAL : ℚ := max (1/1000000) (TREND_WEIGHTS.map Prod.snd).sum

/-- Embeds _detect_trend_skills: matched trend skills (sorted) and the
normalized, capped trend score. -/
def _detect_trend_skills (text_lower : String) (cand_skills : List String) :
    List String × ℚ :=
  let matched := TREND_WEIGHTS.filter fun sw =>
    strContains text_lower sw.1 || cand_skills.contains sw.1
  let score_sum := (matched.map Prod.snd).sum
  let trend_score := if 0 < TREND_TOTAL then min 1 (score_sum / TREND_TOTAL) else 0
  ((matched.map Prod.fst).insertionSort (· ≤ ·), trend_score)

/-- One entry of education_normalized (a raw line and its normalized level). -/
structure EduEntry where
  raw : String
  level : String
deriving DecidableEq, Repr

/-- The contacts dict extracted by enrichment. -/
structure Contacts where
  email : Option String
  phone : Option String
  links : List String
deriving DecidableEq, Repr

/-- A candidate dict as consumed by score_candidates (the fields it reads). -/
structure Cand where
  raw_text : String
  raw_text_redacted : Option String
  skills : List String
  certifications : List String
  education_normalized : List EduEntry
  contacts : Contacts
  flags : List String
  experience_ranges : List (String × String)
  gaps : List GapRec
deriving DecidableEq, Repr

/-- Embeds the source text choice: raw_text_redacted or raw_text (Python or,
so an empty redacted string falls back to raw_text). -/
def Cand.textSource (c : Cand) : String :=
  match c.raw_text_redacted with
  | some s => if s = "" then c.raw_text else s
  | none => c.raw_text

/-- Python truthiness of an optional string (None and empty string are falsy). -/
def truthyStr : Option String → Bool
  | some s => !s.isEmpty
  | none => false

/-- Plain-substring members of JD_CERT_KEYS (each regex is a literal search). -/
def JD_CERT_SUBSTRINGS : List String :=
  ["aws", "azure", "gcp", "certified", "cissp", "pmp", "cka", "ckad", "rhce"]

/-- Embeds jd_cert_focus: any JD_CERT_KEYS regex matches the lowercased job
text; the last pattern is the alternation oci|oracle. -/
def jdCertFocus (jd_lower : String) : Bool :=
  JD_CERT_SUBSTRINGS.any (fun k => strContains jd_lower k)
    || strContains jd_lower "oci" || strContains jd_lower "oracle"

/-- Embeds the levels dict with Python .get default 0.0 (diploma maps to 0). -/
def levelsVal (lvl : String) : ℚ :=
  if lvl = "phd" then 0.06 else if lvl = "masters" then 0.03
  else if lvl = "bachelor" then 0.01 else 0

/-- Embeds the highest-education loop of score_candidates. -/
def highestEdu (edu : List EduEntry) : String :=
  edu.foldl (fun highest e =>
    let lvl := lowerS e.level
    if lvl = "phd" || lvl = "masters" || lvl = "bachelor" || lvl = "diploma" then
      if highest = "" || levelsVal highest < levelsVal lvl then lvl else highest
    else highest) ""

/-- Education bonus: value of the highest normalized level. -/
def eduBonus (c : Cand) : ℚ := levelsVal (highestEdu c.education_normalized)

/-- Certification bonus: 0.03 per certification, capped at 0.06 (0.08 when the
job text emphasizes certifications). -/
def certBonus (jdf : Bool) (c : Cand) : ℚ :=
  min (if jdf then 0.08 else 0.06) (0.03 * (c.certifications.length : ℚ))

/-- Contact completeness bonus, capped at 0.02. -/
def contactBonus (c : Cand) : ℚ :=
  min 0.02 ((if truthyStr c.contacts.email then (0.007 : ℚ) else 0)
    + (if truthyStr c.contacts.phone then 0.007 else 0)
    + (if !c.contacts.links.isEmpty then 0.006 else 0))

/-- Embeds the PEN dict lookup (0 for flags outside the table). -/
def penVal (f : String) : ℚ :=
  if f = "employment_gaps_detected" then 0.05
  else if f = "overlapping_roles_detected" then 0.03
  else if f = "possible_duplicate_claims" then 0.02
  else if f = "potential_exaggeration_detected" then 0.04
  else 0

/-- Penalty sum over the flags, capped at 0.10. -/
def penaltySum (c : Cand) : ℚ := min 0.10 ((c.flags.map penVal).sum)

/-- Raw consistency bonus before the cap-to-1 shrink. -/
def consistencyBonusRaw (consistency : ℚ) : ℚ :=
  if 0.5 ≤ consistency then 0.02 else if 0.25 ≤ consistency then 0.01 else 0

/-- Coverage of a skill list: hits by substring-in-text or membership in the
candidate skill set, divided by the list size; 0 for an empty list. -/
def coverage (skills_lower : List String) (text_lower : String)
    (cand_skills : List String) : ℚ :=
  if skills_lower.isEmpty then 0
  else (skills_lower.countP (fun s =>
    strContains text_lower s || cand_skills.contains s) : ℚ)
    / ((max 1 skills_lower.length : ℕ) : ℚ)

/-- A scored candidate (the fields score_candidates adds to the dict). -/
structure Scored where
  cand : Cand
  keyword_score : ℚ
  semantic_score : ℚ
  trend_score : ℚ
  trend_skills : List String
  overall_score : ℚ
  hard_cov : ℚ
  nice_cov : ℚ
  missing_hard_skills : List String
  confidence : ℚ
  risk_score : ℚ
  risk_label : String
  risk_reasons : List String
  consistency : ℚ
deriving DecidableEq, Repr

/-- Embeds the per-candidate body of the score_candidates loop. -/
def scoreOne (jdf : Bool) (hard_lower nice_lower : List String)
    (semantic_score : ℚ) (cand : Cand) : Scored :=
  let text_lower := lowerS cand.textSource
  let cand_skills := lowerSet cand.skills
  let hard_cov := coverage hard_lower text_lower cand_skills
  let nice_cov := coverage nice_lower text_lower cand_skills
  let keyword_score := 0.7 * hard_cov + 0.3 * nice_cov
  let ts := _detect_trend_skills text_lower cand_skills
  let base_overall := 0.5 * keyword_score + 0.35 * semantic_score + 0.15 * ts.2
  let overall1 := clamp01 (base_overall + certBonus jdf cand + eduBonus cand
    + contactBonus cand - penaltySum cand)
  let missing_hard := (hard_lower.filter fun s =>
    !strContains text_lower s && !cand_skills.contains s).insertionSort (· ≤ ·)
  let consistency := ((hard_lower.countP fun s =>
    cand_skills.contains s && strContains text_lower s) : ℚ)
    / ((max 1 hard_lower.length : ℕ) : ℚ)
  let cb0 := consistencyBonusRaw consistency
  let cb := if 1 < overall1 + cb0 then max 0 (1 - overall1) else cb0
  let overall := clamp01 (overall1 + cb)
  let agreement := 1 - min 1 |keyword_score - semantic_score|
  let confidence := clamp01 (0.5 * agreement + 0.25 * hard_cov
    + 0.25 * (1 - min 1 (penaltySum cand)))
  let has_email := truthyStr cand.contacts.email
  let has_phone := truthyStr cand.contacts.phone
  let hasF := !cand.flags.isEmpty
  let r_gaps := hasF && cand.flags.contains "employment_gaps_detected"
  let r_ovl := hasF && cand.flags.contains "overlapping_roles_detected"
  let r_dup := hasF && cand.flags.contains "possible_duplicate_claims"
  let r_exa := hasF && cand.flags.contains "potential_exaggeration_detected"
  let r_noexp := cand.experience_ranges.isEmpty
  let r_contact := !has_email || !has_phone
  let risk_pre := (if r_gaps then (0.25 : ℚ) else 0) + (if r_ovl then 0.2 else 0)
    + (if r_dup then 0.15 else 0) + (if r_exa then 0.2 else 0)
    + (if r_noexp then 0.15 else 0) + (if r_contact then 0.1 else 0)
  let risk := max 0 (min 1 risk_pre)
  let risk_reasons := (if r_gaps then ["employment_gaps"] else [])
    ++ (if r_ovl then ["overlapping_roles"] else [])
    ++ (if r_dup then ["duplicate_claims"] else [])
    ++ (if r_exa then ["exaggeration"] else [])
    ++ (if r_noexp then ["no_experience_dates"] else [])
    ++ (if r_contact then ["missing_contact"] else [])
  let risk_label := if 0.6 ≤ risk then "High"
    else if 0.3 ≤ risk then "Medium" else "Low"
  { cand := cand, keyword_score := keyword_score, semantic_score := semantic_score,
    trend_score := ts.2, trend_skills := ts.1, overall_score := overall,
    hard_cov := hard_cov, nice_cov := nice_cov, missing_hard_skills := missing_hard,
    confidence := confidence, risk_score := risk, risk_label := risk_label,
    risk_reasons := risk_reasons, consistency := consistency }

/-- The ranking order of the final sort: descending overall score, then fewer
flags, then fewer gaps (Python key (overall, -flags, -gaps) with reverse). -/
def rankLE (a b : Scored) : Prop :=
  b.overall_score < a.overall_score
    ∨ (a.overall_score = b.overall_score
        ∧ (a.cand.flags.length < b.cand.flags.length
            ∨ (a.cand.flags.length = b.cand.flags.length
                ∧ a.cand.gaps.length ≤ b.cand.gaps.length)))

instance (a b : Scored) : Decidable (rankLE a b) := by
  unfold rankLE; exact inferInstance

instance : IsTotal Scored rankLE :=
  ⟨fun a b => by
    unfold rankLE
    rcases lt_trichotomy a.overall_score b.overall_score with h | h | h
    · exact Or.inr (Or.inl h)
    · rcases lt_trichotomy a.cand.flags.length b.cand.flags.length with h2 | h2 | h2
      · exact Or.inl (Or.inr ⟨h, Or.inl h2⟩)
      · rcases le_total a.cand.gaps.length b.cand.gaps.length with h3 | h3
        · exact Or.inl (Or.inr ⟨h, Or.inr ⟨h2, h3⟩⟩)
        · exact Or.inr (Or.inr ⟨h.symm, Or.inr ⟨h2.symm, h3⟩⟩)
      · exact Or.inr (Or.inr ⟨h.symm, Or.inl h2⟩)
    · exact Or.inl (Or.inl h)⟩

instance : IsTrans Scored rankLE :=
  ⟨fun a b c hab hbc => by
    unfold rankLE at *
    rcases hab with h1 | ⟨h1, hf1⟩
    · rcases hbc with h2 | ⟨h2, hf2⟩
      · exact Or.inl (h2.trans h1)
      · exact Or.inl (h2 ▸ h1)
    · rcases hbc with h2 | ⟨h2, hf2⟩
      · exact Or.inl (by rw [h1]; exact h2)
      · refine Or.inr ⟨h1.trans h2, ?_⟩
        rcases hf1 with g1 | ⟨g1, g1'⟩
        · rcases hf2 with g2 | ⟨g2, g2'⟩
          · exact Or.inl (g1.trans g2)
          · exact Or.inl (g2 ▸ g1)
        · rcases hf2 with g2 | ⟨g2, g2'⟩
          · exact Or.inl (by rw [g1]; exact g2)
          · exact Or.inr ⟨g1.trans g2, g1'.trans g2'⟩⟩

/-- Embeds score_candidates: per-candidate scoring (with the semantic score of
index i, 0 beyond the list) followed by the final stable sort. -/
def score_candidates (job_text : String) (semantic_scores : List ℚ)
    (candidates : List Cand) (hard_skills nice_skills : List String) : List Scored :=
  let jd_lower := lowerS job_text
  let jdf := jdCertFocus jd_lower
  let hard_lower := lowerSet hard_skills
  let nice_lower := lowerSet nice_skills
  let results := candidates.enum.map fun ic =>
    scoreOne jdf hard_lower nice_lower (semantic_scores.getD ic.1 0) ic.2
  results.insertionSort rankLE

lemma clamp01_nonneg (x : ℚ) : 0 ≤ clamp01 x := le_max_left _ _

lemma clamp01_le_one (x : ℚ) : clamp01 x ≤ 1 :=
  max_le (by norm_num) (min_le_left _ _)

lemma consistencyBonusRaw_nonneg (c : ℚ) : 0 ≤ consistencyBonusRaw c := by
  unfold consistencyBonusRaw; split_ifs <;> norm_num

lemma consistency_cap_eq (x cb : ℚ) :
    clamp01 (clamp01 x + (if 1 < clamp01 x + cb then max 0 (1 - clamp01 x) else cb))
      = clamp01 (clamp01 x + min cb (max 0 (1 - clamp01 x))) := by
  have h1 : clamp01 x ≤ 1 := clamp01_le_one x
  by_cases h : 1 < clamp01 x + cb
  · rw [if_pos h]
    have hm : max 0 (1 - clamp01 x) = 1 - clamp01 x := max_eq_right (by linarith)
    rw [hm, min_eq_right (by linarith)]
  · rw [if_neg h]
    have : cb ≤ max 0 (1 - clamp01 x) := le_max_of_le_right (by linarith)
    rw [min_eq_left this]

/-- C1: every overall score produced by the scoring loop equals
clamp01(clamp01(0.5*keyword + 0.35*semantic + 0.15*trend + cert_bonus +
edu_bonus + contact_bonus - penalties) + consistency_bonus), where the raw
consistency bonus (0.02 when consistency is at least 0.5, 0.01 when at least
0.25, else 0) is shrunk to the residual margin to 1 so the final score cannot
exceed 1. -/
theorem overall_score_formula (jdf : Bool) (hard_lower nice_lower : List String)
    (sem : ℚ) (cand : Cand) :
    (scoreOne jdf hard_lower nice_lower sem cand).overall_score
      = clamp01 (clamp01 (0.5 * (scoreOne jdf hard_lower nice_lower sem cand).keyword_score
            + 0.35 * (scoreOne jdf hard_lower nice_lower sem cand).semantic_score
            + 0.15 * (scoreOne jdf hard_lower nice_lower sem cand).trend_score
            + certBonus jdf cand + eduBonus cand + contactBonus cand - penaltySum cand)
          + min (consistencyBonusRaw (scoreOne jdf hard_lower nice_lower sem cand).consistency)
              (max 0 (1 - clamp01 (0.5 * (scoreOne jdf hard_lower nice_lower sem cand).keyword_score
                + 0.35 * (scoreOne jdf hard_lower nice_lower sem cand).semantic_score
                + 0.15 * (scoreOne jdf hard_lower nice_lower sem cand).trend_score
                + certBonus jdf cand + eduBonus cand + contactBonus cand - penaltySum cand))))
    ∧ (scoreOne jdf hard_lower nice_lower sem cand).overall_score ≤ 1 := by
  constructor
  · show clamp01 _ = _
    exact consistency_cap_eq _ _
  · exact clamp01_le_one _

/-- Witness instantiating the C1 formula at a concrete candidate. -/
theorem overall_score_formula_witness :
    (scoreOne false [] [] 0
        ⟨"", none, [], [], [], ⟨none, none, []⟩, [], [], []⟩).overall_score ≤ 1 :=
  (overall_score_formula false [] [] 0
    ⟨"", none, [], [], [], ⟨none, none, []⟩, [], [], []⟩).2

/-- C2: every overall score and every risk score produced by the Scoring
Engine lies within [0,1], for any input whatsoever — empty skill lists, empty
job and candidate texts, arbitrary semantic scores, and any cohort size
including zero candidates (vacuously). -/
theorem scores_within_unit (job_text : String) (sems : List ℚ) (cands : List Cand)
    (hard nice : List String) :
    ∀ r ∈ score_candidates job_text sems cands hard nice,
      (0 ≤ r.overall_score ∧ r.overall_score ≤ 1)
      ∧ (0 ≤ r.risk_score ∧ r.risk_score ≤ 1) := by
  intro r hr
  have hmem : r ∈ cands.enum.map fun ic =>
      scoreOne (jdCertFocus (lowerS job_text)) (lowerSet hard) (lowerSet nice)
        (sems.getD ic.1 0) ic.2 := by
    have heq : score_candidates job_text sems cands hard nice
        = (cands.enum.map fun ic =>
            scoreOne (jdCertFocus (lowerS job_text)) (lowerSet hard) (lowerSet nice)
              (sems.getD ic.1 0) ic.2).insertionSort rankLE := rfl
    rw [heq] at hr
    exact (List.mem_insertionSort rankLE).mp hr
  obtain ⟨ic, _, rfl⟩ := List.mem_map.mp hmem
  refine ⟨⟨clamp01_nonneg _, clamp01_le_one _⟩, ⟨le_max_left _ _, ?_⟩⟩
  exact max_le (by norm_num) (min_le_left _ _)

/-- The all-empty candidate used by concrete witnesses. -/
def candEmpty : Cand :=
  { raw_text := "", raw_text_redacted := none, skills := [], certifications := [],
    education_normalized := [], contacts := ⟨none, none, []⟩, flags := [],
    experience_ranges := [], gaps := [] }

/-- The scored record of the empty candidate under empty inputs. -/
def scoredEmpty : Scored := scoreOne false [] [] 0 candEmpty

/-- Witness for C2: concrete membership in a concrete cohort. -/
theorem scores_within_unit_witness :
    (scoredEmpty ∈ score_candidates "" [] [candEmpty] [] [])
    ∧ ((0 ≤ scoredEmpty.overall_score ∧ scoredEmpty.overall_score ≤ 1)
        ∧ (0 ≤ scoredEmpty.risk_score ∧ scoredEmpty.risk_score ≤ 1)) :=
  ⟨List.mem_singleton.mpr rfl,
    scores_within_unit "" [] [candEmpty] [] [] scoredEmpty (List.mem_singleton.mpr rfl)⟩

/-- C3: the ranked output of the Scoring Engine is pairwise ordered: overall
scores descend; among equal overall scores the flag count ascends; among equal
overall scores and flag counts the gap count ascends. -/
theorem ranking_sorted (job_text : String) (sems : List ℚ) (cands : List Cand)
    (hard nice : List String) :
    (score_candidates job_text sems cands hard nice).Pairwise (fun a b =>
      b.overall_score ≤ a.overall_score
      ∧ (a.overall_score = b.overall_score →
          a.cand.flags.length ≤ b.cand.flags.length
          ∧ (a.cand.flags.length = b.cand.flags.length →
              a.cand.gaps.length ≤ b.cand.gaps.length))) := by
  have heq : score_candidates job_text sems cands hard nice
      = (cands.enum.map fun ic =>
          scoreOne (jdCertFocus (lowerS job_text)) (lowerSet hard) (lowerSet nice)
            (sems.getD ic.1 0) ic.2).insertionSort rankLE := rfl
  rw [heq]
  have hs := List.sorted_insertionSort rankLE (cands.enum.map fun ic =>
    scoreOne (jdCertFocus (lowerS job_text)) (lowerSet hard) (lowerSet nice)
      (sems.getD ic.1 0) ic.2)
  refine List.Pairwise.imp ?_ hs
  intro a b hab
  rcases hab with h | ⟨h, hf⟩
  · exact ⟨le_of_lt h, fun he => absurd he.symm (ne_of_lt h)⟩
  · refine ⟨le_of_eq h.symm, fun _ => ?_⟩
    rcases hf with g | ⟨g, g'⟩
    · exact ⟨Nat.le_of_lt g, fun ge => absurd ge (Nat.ne_of_lt g)⟩
    · exact ⟨le_of_eq g, fun _ => g'⟩

/-- Witness instantiating the C3 ordering at a concrete two-element cohort. -/
theorem ranking_sorted_witness :
    (score_candidates "" [] [candEmpty, candEmpty] [] []).Pairwise (fun a b =>
      b.overall_score ≤ a.overall_score
      ∧ (a.overall_score = b.overall_score →
          a.cand.flags.length ≤ b.cand.flags.length
          ∧ (a.cand.flags.length = b.cand.flags.length →
              a.cand.gaps.length ≤ b.cand.gaps.length))) :=
  ranking_sorted "" [] [candEmpty, candEmpty] [] []

/-! ## services/analysis.py: skill enrichment and missing_hard_skills (C7)

Only the skills part of _enrich_profile feeds the missing_hard_skills
computation of analyze_profile_vs_job; the other enrichment steps (education,
certifications, contacts, extra ranges) do not touch the skills set. -/

/-- Embeds SKILL_SYNONYMS. -/
def SKILL_SYNONYMS : List (String × String) :=
  [("js", "javascript"), ("nodejs", "node"), ("ts", "typescript"), ("tf", "tensorflow"),
   ("scikit learn", "scikit-learn"), ("nltk", "nlp"),
   ("natural language processing", "nlp"),
   ("ml", "machine learning"), ("dl", "deep learning")]

/-- Embeds MULTI_SKILLS. -/
def MULTI_SKILLS : List String :=
  ["machine learning", "data science", "deep learning", "natural language processing",
   "computer vision", "project management", "data analysis", "web development",
   "object oriented programming", "rest api", "microservices"]

/-- Character class of the token-splitting regex [a-zA-Z0-9+#.-]. -/
def isTokChar (c : Char) : Bool :=
  c.isAlphanum || c = '+' || c = '#' || c = '.' || c = '-'

/-- Splitter for re.split on the complement class (keeps empty pieces, which
the source then skips). -/
def splitToksAux : List Char → List Char → List String
  | acc, [] => [⟨acc.reverse⟩]
  | acc, c :: t =>
    if isTokChar c then splitToksAux (c :: acc) t
    else ⟨acc.reverse⟩ :: splitToksAux [] t

/-- Tokens of the lowercased text. -/
def splitToks (s : String) : List String := splitToksAux [] s.data

/-- Dict lookup in SKILL_SYNONYMS. -/
def synLookup (tok : String) : Option String :=
  (SKILL_SYNONYMS.find? fun kv => kv.1 = tok).map Prod.snd

/-- Embeds the skills portion of _enrich_profile: lowercased declared skills,
multi-phrase substring hits, and synonym expansions of text tokens, as a
sorted set. -/
def enrichedSkills (skills : List String) (text : String) : List String :=
  let lowered := lowerS text
  let sk := (skills.map lowerS)
    ++ (MULTI_SKILLS.filter fun ph => strContains lowered ph)
    ++ ((splitToks lowered).filterMap fun tok =>
        if tok = "" then none else synLookup tok)
  (sk.dedup).insertionSort (· ≤ ·)

/-- Embeds the missing_hard_skills computation of analyze_profile_vs_job
(lines 248-251): required skills not in the enriched skill set, sorted; note
there is no direct text search here. -/
def analyzerMissing (skills hard_skills : List String) (text : String) : List String :=
  let cand_skills := lowerSet (enrichedSkills skills text)
  let hard_lower := lowerSet hard_skills
  (hard_lower.filter fun s => !cand_skills.contains s).insertionSort (· ≤ ·)

/-- Formalizes the words of claim C7 and of the spec sentence it quotes:
required skills (lowercased) present in neither the enriched skill set nor a
direct search of the candidate text, sorted ascending. (This is what
score_candidates computes at scoring.py line 162; the analyzer does not do the
text search.) -/
def specMissingHardSkills (skills hard_skills : List String) (text : String) : List String :=
  let cand_skills := lowerSet (enrichedSkills skills text)
  let hard_lower := lowerSet hard_skills
  (hard_lower.filter fun s =>
    !strContains (lowerS text) s && !cand_skills.contains s).insertionSort (· ≤ ·)

/-- Counterexample to C7: for a candidate whose text contains the required
skill python but whose (enriched) skill set does not, the analyzer reports
python missing while the claimed formula does not. -/
theorem analyzer_missing_counterexample :
    analyzerMissing [] ["python"] "python developer" = ["python"]
    ∧ specMissingHardSkills [] ["python"] "python developer" = []
    ∧ analyzerMissing [] ["python"] "python developer"
        ≠ specMissingHardSkills [] ["python"] "python developer" := by
  refine ⟨?_, ?_, ?_⟩ <;> decide

/-- C7 as amended: the analyzer's missing_hard_skills output is exactly the
set of required skills (lowercased) absent from the lowercased enriched skill
set — with no direct text search — sorted ascending and duplicate-free. -/
theorem analyzer_missing_characterization (skills hard_skills : List String)
    (text : String) :
    (analyzerMissing skills hard_skills text).Sorted (· ≤ ·)
    ∧ (analyzerMissing skills hard_skills text).Nodup
    ∧ ∀ s, s ∈ analyzerMissing skills hard_skills text
        ↔ s ∈ lowerSet hard_skills ∧ s ∉ lowerSet (enrichedSkills skills text) := by
  unfold analyzerMissing
  refine ⟨List.sorted_insertionSort _ _, ?_, ?_⟩
  · have hperm := List.perm_insertionSort (· ≤ · : String → String → Prop)
      ((lowerSet hard_skills).filter fun s =>
        !(lowerSet (enrichedSkills skills text)).contains s)
    refine hperm.nodup_iff.mpr ?_
    exact List.Nodup.filter _ (List.nodup_dedup _)
  · intro s
    rw [List.mem_insertionSort, List.mem_filter]
    constructor
    · rintro ⟨h1, h2⟩
      refine ⟨h1, fun hc => ?_⟩
      have hcc : (lowerSet (enrichedSkills skills text)).contains s = true := by
        show List.elem s (lowerSet (enrichedSkills skills text)) = true
        exact List.elem_iff.mpr hc
      rw [hcc] at h2
      exact absurd h2 (by decide)
    · rintro ⟨h1, h2⟩
      refine ⟨h1, ?_⟩
      have hc : (lowerSet (enrichedSkills skills text)).contains s = false := by
        show List.elem s (lowerSet (enrichedSkills skills text)) = false
        rw [← Bool.not_eq_true]
        intro hcc
        exact h2 (List.elem_iff.mp hcc)
      rw [hc]
      rfl

/-- Witness instantiating the amended C7 characterization concretely. -/
theorem analyzer_missing_characterization_witness :
    (analyzerMissing [] ["python"] "python developer").Sorted (· ≤ ·)
    ∧ (analyzerMissing [] ["python"] "python developer").Nodup
    ∧ ∀ s, s ∈ analyzerMissing [] ["python"] "python developer"
        ↔ s ∈ lowerSet ["python"]
          ∧ s ∉ lowerSet (enrichedSkills [] "python developer") :=
  analyzer_missing_characterization [] ["python"] "python developer"

/-! ## app.py analytics endpoint (C9)

The sklearn calls (vectorizer fit, PCA projection, KMeans, cosine similarity
matrix) are external; each is modelled as an oracle value that either fails
(the except-branches of the source) or returns its payload. The embedded
control flow around them is that of app.py lines 342-408; the three local
accumulators (coords, labels, neighbors_all) are named definitions here. -/

/-- Outcomes of the external numeric calls of the analytics endpoint. The
vectorization outcome carries the feature count (dense.shape[1]). -/
structure AnOracles where
  vectFeatures : Except Unit ℕ
  pcaCoords : Except Unit (List (ℚ × ℚ))
  kmeansLabels : Except Unit (List ℤ)
  simMatrix : Except Unit (List (List ℚ))

/-- One nearest-neighbor entry. -/
structure Neighbor where
  filename : String
  sim : ℚ
deriving DecidableEq, Repr

/-- The analytics fields attached to one candidate. -/
structure CandAnalytics where
  pca : ℚ × ℚ
  cluster_id : ℤ
  neighbors : List Neighbor
deriving DecidableEq, Repr

/-- Nearest integer to the square root (int(round(n ** 0.5)); the tie n with
4n an odd square cannot occur, and the float sqrt is exact at these small n). -/
def natRoundSqrt (n : ℕ) : ℕ := (Nat.sqrt (4 * n) + 1) / 2

/-- The coords accumulator: PCA 2D projection when n and the feature count are
both at least 2, else (and on any failure) (0,0) for every candidate. -/
def coordsOf (n : ℕ) (orc : AnOracles) : List (ℚ × ℚ) :=
  match orc.vectFeatures with
  | .error _ => List.replicate n (0, 0)
  | .ok dims =>
    if 2 ≤ n ∧ 2 ≤ dims then
      match orc.pcaCoords with
      | .ok xy => xy
      | .error _ => List.replicate n (0, 0)
    else List.replicate n (0, 0)

/-- The labels accumulator: KMeans with adaptive k when n is at least 2, else
(and on any failure) cluster 0 for every candidate. -/
def labelsOf (n : ℕ) (orc : AnOracles) : List ℤ :=
  match orc.vectFeatures with
  | .error _ => List.replicate n 0
  | .ok _ =>
    if 2 ≤ n then
      let k := min (min 6 (max 2 (natRoundSqrt n))) n
      if 1 ≤ k then
        match orc.kmeansLabels with
        | .ok ls => ls
        | .error _ => List.replicate n 0
      else List.replicate n 0
    else List.replicate n 0

/-- The neighbors accumulator: top-5 cosine neighbors (others sorted by
similarity descending) when n is at least 2, else (and on any failure) the
empty list for every candidate. -/
def neighborsOf (filenames : List String) (orc : AnOracles) : List (List Neighbor) :=
  let n := filenames.length
  match orc.vectFeatures with
  | .error _ => List.replicate n []
  | .ok _ =>
    if 2 ≤ n then
      match orc.simMatrix with
      | .ok sim =>
        (List.range n).map fun i =>
          let scores := ((List.range n).filter fun j => j ≠ i).map
            fun j => (j, (sim.getD i []).getD j 0)
          let sorted := scores.insertionSort fun a b => b.2 ≤ a.2
          (sorted.take 5).map fun js => ⟨filenames.getD js.1 "", js.2⟩
      | .error _ => List.replicate n []
    else List.replicate n []

/-- Embeds the analytics attachment of app.py lines 342-408 for the valid
candidates (identified by filename): the n = 0 early return with empty
results, then the three accumulators attached per candidate with their
out-of-range defaults. -/
def analyticsAttach (filenames : List String) (orc : AnOracles) : List CandAnalytics :=
  if filenames.length = 0 then []
  else
    (List.range filenames.length).map fun i =>
      { pca := (coordsOf filenames.length orc).getD i (0, 0),
        cluster_id := (labelsOf filenames.length orc).getD i 0,
        neighbors := (neighborsOf filenames orc).getD i [] }

lemma getD_replicate {α : Type} (n i : ℕ) (a : α) :
    (List.replicate n a).getD i a = a := by
  induction n generalizing i with
  | zero => simp [List.getD]
  | succ m ih =>
    cases i with
    | zero => rfl
    | succ j => simp only [List.replicate, List.getD_cons_succ]; exact ih j

lemma analyticsAttach_mem {filenames : List String} {orc : AnOracles}
    {r : CandAnalytics} (hr : r ∈ analyticsAttach filenames orc) :
    ∃ i, r = CandAnalytics.mk ((coordsOf filenames.length orc).getD i (0, 0))
        ((labelsOf filenames.length orc).getD i 0)
        ((neighborsOf filenames orc).getD i []) := by
  unfold analyticsAttach at hr
  by_cases h : filenames.length = 0
  · rw [if_pos h] at hr
    exact absurd hr (List.not_mem_nil r)
  · rw [if_neg h] at hr
    obtain ⟨i, _, rfl⟩ := List.mem_map.mp hr
    exact ⟨i, rfl⟩

lemma coordsOf_one (orc : AnOracles) : coordsOf 1 orc = List.replicate 1 (0, 0) := by
  rcases horc : orc.vectFeatures with er | dims
  · simp only [coordsOf, horc]
  · simp only [coordsOf, horc]
    rw [if_neg (fun hc => absurd hc.1 (by omega))]

lemma labelsOf_one (orc : AnOracles) : labelsOf 1 orc = List.replicate 1 0 := by
  rcases horc : orc.vectFeatures with er | dims
  · simp only [labelsOf, horc]
  · simp only [labelsOf, horc]
    rw [if_neg (by omega)]

lemma neighborsOf_one {filenames : List String} (h : filenames.length = 1)
    (orc : AnOracles) : neighborsOf filenames orc = List.replicate 1 [] := by
  rcases horc : orc.vectFeatures with er | dims
  · simp only [neighborsOf, horc, h]
  · simp only [neighborsOf, horc, h]
    rw [if_neg (by omega)]

lemma coordsOf_vect_err {n : ℕ} {orc : AnOracles} {er : Unit}
    (h : orc.vectFeatures = .error er) : coordsOf n orc = List.replicate n (0, 0) := by
  simp only [coordsOf, h]

lemma labelsOf_vect_err {n : ℕ} {orc : AnOracles} {er : Unit}
    (h : orc.vectFeatures = .error er) : labelsOf n orc = List.replicate n 0 := by
  simp only [labelsOf, h]

lemma neighborsOf_vect_err {filenames : List String} {orc : AnOracles} {er : Unit}
    (h : orc.vectFeatures = .error er) :
    neighborsOf filenames orc = List.replicate filenames.length [] := by
  simp only [neighborsOf, h]

lemma coordsOf_pca_err {n : ℕ} {orc : AnOracles} {er : Unit}
    (h : orc.pcaCoords = .error er) : coordsOf n orc = List.replicate n (0, 0) := by
  rcases horc : orc.vectFeatures with er2 | dims
  · simp only [coordsOf, horc]
  · simp only [coordsOf, horc, h, ite_self]

lemma labelsOf_kmeans_err {n : ℕ} {orc : AnOracles} {er : Unit}
    (h : orc.kmeansLabels = .error er) : labelsOf n orc = List.replicate n 0 := by
  rcases horc : orc.vectFeatures with er2 | dims
  · simp only [labelsOf, horc]
  · simp only [labelsOf, horc, h, ite_self]

lemma neighborsOf_sim_err {filenames : List String} {orc : AnOracles} {er : Unit}
    (h : orc.simMatrix = .error er) :
    neighborsOf filenames orc = List.replicate filenames.length [] := by
  rcases horc : orc.vectFeatures with er2 | dims
  · simp only [neighborsOf, horc]
  · simp only [neighborsOf, horc, h, ite_self]

/-- C9: the analytics attachment never fails past its component: zero valid
candidates yield empty results; a single candidate gets pca (0,0), cluster 0
and no neighbors whatever the oracles return; and when the vectorization,
projection, clustering or similarity call fails, every candidate receives the
documented safe default for the affected field instead of the request failing. -/
theorem analytics_safe_defaults (filenames : List String) (orc : AnOracles) :
    (filenames = [] → analyticsAttach filenames orc = [])
    ∧ (filenames.length = 1 →
        ∀ r ∈ analyticsAttach filenames orc,
          r.pca = (0, 0) ∧ r.cluster_id = 0 ∧ r.neighbors = [])
    ∧ ((∃ er, orc.vectFeatures = .error er) →
        ∀ r ∈ analyticsAttach filenames orc,
          r.pca = (0, 0) ∧ r.cluster_id = 0 ∧ r.neighbors = [])
    ∧ ((∃ er, orc.pcaCoords = .error er) →
        ∀ r ∈ analyticsAttach filenames orc, r.pca = (0, 0))
    ∧ ((∃ er, orc.kmeansLabels = .error er) →
        ∀ r ∈ analyticsAttach filenames orc, r.cluster_id = 0)
    ∧ ((∃ er, orc.simMatrix = .error er) →
        ∀ r ∈ analyticsAttach filenames orc, r.neighbors = []) := by
  refine ⟨fun h => by rw [h]; rfl, ?_, ?_, ?_, ?_, ?_⟩
  · intro h r hr
    obtain ⟨i, rfl⟩ := analyticsAttach_mem hr
    refine ⟨?_, ?_, ?_⟩
    · show (coordsOf filenames.length orc).getD i (0, 0) = (0, 0)
      rw [h, coordsOf_one]
      exact getD_replicate _ _ _
    · show (labelsOf filenames.length orc).getD i 0 = 0
      rw [h, labelsOf_one]
      exact getD_replicate _ _ _
    · show (neighborsOf filenames orc).getD i [] = []
      rw [neighborsOf_one h]
      exact getD_replicate _ _ _
  · rintro ⟨er, h⟩ r hr
    obtain ⟨i, rfl⟩ := analyticsAttach_mem hr
    refine ⟨?_, ?_, ?_⟩
    · show (coordsOf filenames.length orc).getD i (0, 0) = (0, 0)
      rw [coordsOf_vect_err h]
      exact getD_replicate _ _ _
    · show (labelsOf filenames.length orc).getD i 0 = 0
      rw [labelsOf_vect_err h]
      exact getD_replicate _ _ _
    · show (neighborsOf filenames orc).getD i [] = []
      rw [neighborsOf_vect_err h]
      exact getD_replicate _ _ _
  · rintro ⟨er, h⟩ r hr
    obtain ⟨i, rfl⟩ := analyticsAttach_mem hr
    show (coordsOf filenames.length orc).getD i (0, 0) = (0, 0)
    rw [coordsOf_pca_err h]
    exact getD_replicate _ _ _
  · rintro ⟨er, h⟩ r hr
    obtain ⟨i, rfl⟩ := analyticsAttach_mem hr
    show (labelsOf filenames.length orc).getD i 0 = 0
    rw [labelsOf_kmeans_err h]
    exact getD_replicate _ _ _
  · rintro ⟨er, h⟩ r hr
    obtain ⟨i, rfl⟩ := analyticsAttach_mem hr
    show (neighborsOf filenames orc).getD i [] = []
    rw [neighborsOf_sim_err h]
    exact getD_replicate _ _ _

/-- Witness for C9: one candidate with all-failing oracles gets every default. -/
theorem analytics_safe_defaults_witness :
    (["cv.pdf"].length = 1
      ∧ (∃ er, (AnOracles.mk (.error ()) (.error ()) (.error ()) (.error ())).vectFeatures
          = .error er))
    ∧ ∀ r ∈ analyticsAttach ["cv.pdf"]
        (AnOracles.mk (.error ()) (.error ()) (.error ()) (.error ())),
        r.pca = (0, 0) ∧ r.cluster_id = 0 ∧ r.neighbors = [] :=
  ⟨⟨rfl, ⟨(), rfl⟩⟩,
    (analytics_safe_defaults ["cv.pdf"]
      (AnOracles.mk (.error ()) (.error ()) (.error ()) (.error ()))).2.1 rfl⟩

/-! ## services/analysis.py: _parse_date and _normalize_ranges (C10)

The dateutil fuzzy parser is external; it is modelled as an oracle
p : String to Option Dt (none on parse failure, matching the except branch).
The repository-side preprocessing — strip, then replacing en dash, em dash and
the substring to by a hyphen — is embedded exactly. -/

/-- Left-to-right non-overlapping replacement (Python str.replace), with the
input length as structural fuel (one character is consumed per step, so the
fuel never runs out). -/
def replaceFuel (pat repl : List Char) : ℕ → List Char → List Char
  | 0, l => l
  | _ + 1, [] => []
  | fuel + 1, c :: rest =>
    if pat ≠ [] ∧ pat.isPrefixOf (c :: rest) then
      repl ++ replaceFuel pat repl fuel (rest.drop (pat.length - 1))
    else c :: replaceFuel pat repl fuel rest

/-- Python str.replace on char lists. -/
def replaceL (pat repl l : List Char) : List Char :=
  replaceFuel pat repl l.length l

/-- Python str.strip (whitespace from both ends). -/
def stripL (l : List Char) : List Char :=
  ((l.dropWhile Char.isWhitespace).reverse.dropWhile Char.isWhitespace).reverse

/-- The preprocessing of _parse_date: strip, then replace en dash, em dash and
the substring to by a hyphen, in source order. -/
def _parse_date_token (token : String) : String :=
  ⟨replaceL "to".data "-".data
    (replaceL "—".data "-".data
      (replaceL "–".data "-".data (stripL token.data)))⟩

/-- Embeds _parse_date over the external parser oracle p. -/
def _parse_date (p : String → Option Dt) (token : String) : Option Dt :=
  p (_parse_date_token token)

/-- Embeds _normalize_range: parse the start; the end parses to none when it
reads present or current (case-insensitive, stripped). -/
def _normalize_range (p : String → Option Dt) (start stop : String) :
    Option Dt × Option Dt :=
  let s := _parse_date p start
  let stopNorm := lowerS ⟨stripL stop.data⟩
  let e := if stopNorm = "present" ∨ stopNorm = "current" then none
    else _parse_date p stop
  (s, e)

/-- Embeds _normalize_ranges: keep pairs whose start parses (a missing end
becomes now), drop inverted intervals, sort ascending by start. -/
def _normalize_ranges (p : String → Option Dt) (now : Dt)
    (ranges : List (String × String)) : List (Dt × Dt) :=
  let norm := ranges.filterMap fun r =>
    match _normalize_range p r.1 r.2 with
    | (some s, e) => some (s, e.getD now)
    | (none, _) => none
  let norm2 := norm.filter fun se => Dt.le se.1 se.2
  norm2.insertionSort fun x y => Dt.le x.1 y.1

/-- C10: the date parser rewrites every occurrence of the substring to (and of
en/em dashes) to a hyphen before parsing; consequently the syntactically valid
token October 2021 reaches the parser as Oc-ber 2021 — a token that no longer
contains the month name — so whatever the external parser returns cannot be a
function of the denoted date, and at the analysis interface an experience
range written with such a month name is processed exactly as if the garbled
token had been supplied (misparsed, or silently dropped when the parser fails). -/
theorem parse_date_to_rewrite :
    (∀ p token, _parse_date p token = p (_parse_date_token token))
    ∧ _parse_date_token "October 2021" = "Oc-ber 2021"
    ∧ strContains (lowerS "Oc-ber 2021") "octo" = false
    ∧ (∀ (p : String → Option Dt) (now : Dt),
        _normalize_ranges p now [("October 2021", "December 2021")]
          = _normalize_ranges p now [("Oc-ber 2021", "December 2021")]) := by
  refine ⟨fun p token => rfl, by decide, by decide, fun p now => ?_⟩
  have h1 : _parse_date_token "October 2021" = _parse_date_token "Oc-ber 2021" := by
    decide
  simp only [_normalize_ranges, _normalize_range, _parse_date,
    List.filterMap_cons, List.filterMap_nil]
  rw [h1]

/-- Witness instantiating the C10 indistinguishability at a concrete parser
oracle (one that fails on everything) and a concrete now. -/
theorem parse_date_to_rewrite_witness :
    _normalize_ranges (fun _ => none) ⟨2026, 1, 1⟩
        [("October 2021", "December 2021")]
      = _normalize_ranges (fun _ => none) ⟨2026, 1, 1⟩
        [("Oc-ber 2021", "December 2021")] :=
  (parse_date_to_rewrite.2.2.2) (fun _ => none) ⟨2026, 1, 1⟩

/-! ## services/fairness.py: redact_sensitive (C8)

The seven compiled regular expressions are embedded via a small backtracking
matcher with Python re semantics for the constructs they use: ordered
alternation, greedy star/optional/bounded repetition, character classes,
case-insensitive literals (re.I) and word boundaries. The matcher is
structurally recursive on a fuel argument (amply larger than the maximal
backtracking depth) so that concrete runs reduce inside the kernel. -/

/-- Regular expression syntax: empty, single-character class, sequence,
ordered alternation, greedy star, and the zero-width word boundary. -/
inductive RE where
  | eps : RE
  | cls (p : Char → Bool) : RE
  | seq (a b : RE) : RE
  | alt (a b : RE) : RE
  | star (r : RE) : RE
  | wb : RE

/-- Size measure used to pick a sufficient fuel. -/
def RE.size : RE → ℕ
  | .eps => 1
  | .cls _ => 1
  | .seq a b => a.size + b.size + 1
  | .alt a b => a.size + b.size + 1
  | .star r => r.size + 1
  | .wb => 1

/-- Python regex word character (ASCII letters, digits, underscore). -/
def isWordChar (c : Char) : Bool := c.isAlphanum || c = '_'

/-- All ways a pattern can match a prefix of s, in Python preference order
(ordered alternation, greedy repetition first); each outcome is the character
preceding the rest (for later word-boundary tests) and the remaining suffix.
The star progress guard only skips zero-width iterations, which Python forbids
as well; fuel exhaustion cannot occur at the fuel used below. -/
def reMatch : ℕ → RE → Option Char → List Char → List (Option Char × List Char)
  | 0, _, _, _ => []
  | fuel + 1, re, prev, s =>
    match re with
    | .eps => [(prev, s)]
    | .cls p =>
      match s with
      | [] => []
      | c :: t => if p c then [(some c, t)] else []
    | .seq a b => (reMatch fuel a prev s).flatMap fun ps => reMatch fuel b ps.1 ps.2
    | .alt a b => reMatch fuel a prev s ++ reMatch fuel b prev s
    | .wb =>
      let before := (prev.map isWordChar).getD false
      let after := match s with
        | c :: _ => isWordChar c
        | [] => false
      if before ≠ after then [(prev, s)] else []
    | .star r =>
      ((reMatch fuel r prev s).flatMap fun ps =>
        if ps.2.length < s.length then reMatch fuel (.star r) ps.1 ps.2 else [])
      ++ [(prev, s)]

/-- Length of the preferred match of re at this position, if any. -/
def matchHere (re : RE) (prev : Option Char) (s : List Char) : Option ℕ :=
  match reMatch ((re.size + 2) * (s.length + 2)) re prev s with
  | [] => none
  | ps :: _ => some (s.length - ps.2.length)

/-- re.sub with a constant replacement: scan left to right over the original
text, replacing each leftmost non-overlapping match (all the embedded patterns
match at least one character, so the zero-width case cannot arise). -/
def reSubFuel (re : RE) (repl : List Char) : ℕ → Option Char → List Char → List Char
  | 0, _, s => s
  | fuel + 1, prev, s =>
    match s with
    | [] => []
    | c :: rest =>
      match matchHere re prev s with
      | some (k + 1) => repl ++ reSubFuel re repl fuel (some (s.getD k c)) (s.drop (k + 1))
      | _ => c :: reSubFuel re repl fuel (some c) rest

/-- re.sub over a char list. -/
def reSub (re : RE) (repl s : List Char) : List Char :=
  reSubFuel re repl (s.length + 1) none s

/-- re.search as a boolean: does the pattern match anywhere (any position,
including the end of the text). -/
def reSearchFuel (re : RE) : ℕ → Option Char → List Char → Bool
  | 0, _, _ => false
  | fuel + 1, prev, s =>
    match matchHere re prev s with
    | some _ => true
    | none =>
      match s with
      | [] => false
      | c :: rest => reSearchFuel re fuel (some c) rest

/-- re.search over a char list. -/
def reSearch (re : RE) (s : List Char) : Bool :=
  reSearchFuel re (s.length + 1) none s

/-- Case-insensitive literal character (all fairness patterns carry re.I). -/
def reChar (c : Char) : RE := .cls fun x => x.toLower = c.toLower

/-- Case-insensitive literal string. -/
def reStr (w : String) : RE := w.data.foldr (fun c acc => .seq (reChar c) acc) .eps

/-- Ordered alternation of a list of branches. -/
def reAltList : List RE → RE
  | [] => .cls fun _ => false
  | [r] => r
  | r :: rest => .alt r (reAltList rest)

/-- Greedy optional. -/
def reOpt (r : RE) : RE := .alt r .eps

/-- Greedy plus. -/
def rePlus (r : RE) : RE := .seq r (.star r)

/-- Up to k further greedy copies of r. -/
def reOptRep (r : RE) : ℕ → RE
  | 0 => .eps
  | k + 1 => .alt (.seq r (reOptRep r k)) .eps

/-- m required copies of r followed by tail: r{m,m+k} is
reReq r m (reOptRep r k), and r{m,} is reReq r m (star r). -/
def reReq (r : RE) : ℕ → RE → RE
  | 0, tail => tail
  | m + 1, tail => .seq r (reReq r m tail)

/-- Anchored word alternation \b(w1|...|wn)\b used by five of the patterns. -/
def wordAltPat (ws : List String) : RE :=
  .seq .wb (.seq (reAltList (ws.map reStr)) .wb)

/-- The digit class. -/
def digitC : RE := .cls Char.isDigit

/-- The whitespace class. -/
def spaceC : RE := .cls Char.isWhitespace

/-- The class [\s-] of the phone pattern. -/
def spaceDashC : RE := .cls fun c => c.isWhitespace || c = '-'

/-- Embeds GENDER_PAT (pronouns and titles only). -/
def GENDER_PAT : RE :=
  wordAltPat ["he", "she", "him", "her", "his", "hers", "mr.", "mrs.", "ms."]

/-- Embeds AGE_PAT: two-digit age before years old, or age followed by two
digits. -/
def AGE_PAT : RE :=
  .alt
    (.seq .wb (.seq digitC (.seq digitC (.seq (.star spaceC)
      (.seq (reStr "year") (.seq (reOpt (reChar 's')) (.seq (.star spaceC)
        (.seq (reStr "old") .wb))))))))
    (.seq .wb (.seq (reStr "age") (.seq (.star spaceC)
      (.seq digitC (.seq digitC .wb)))))

/-- Embeds MARITAL_PAT. -/
def MARITAL_PAT : RE := wordAltPat ["single", "married", "divorced", "widowed"]

/-- Embeds RELIGION_PAT. -/
def RELIGION_PAT : RE :=
  wordAltPat ["hindu", "muslim", "christian", "sikh", "buddhist", "jain", "jewish"]

/-- Embeds NATIONALITY_PAT. -/
def NATIONALITY_PAT : RE :=
  wordAltPat ["indian", "american", "british", "chinese", "japanese", "german",
    "french", "italian", "spanish", "russian"]

/-- Embeds ETHNICITY_PAT. -/
def ETHNICITY_PAT : RE :=
  wordAltPat ["black", "white", "asian", "hispanic", "latino",
    "native american", "caucasian"]

/-- Embeds CONTACT_PAT: a loose phone shape or an email address. -/
def CONTACT_PAT : RE :=
  .alt
    (.seq .wb (.seq
      (reOpt (.seq (reOpt (reChar '+'))
        (.seq (reReq digitC 1 (reOptRep digitC 2)) (reOpt spaceDashC))))
      (.seq (reReq (.seq (reReq digitC 3 (reOptRep digitC 1)) (reOpt spaceDashC)) 2
          (reOptRep (.seq (reReq digitC 3 (reOptRep digitC 1)) (reOpt spaceDashC)) 1))
        (.seq (reReq digitC 3 (reOptRep digitC 1)) .wb))))
    (.seq .wb (.seq (rePlus (.cls fun c => c.isAlphanum || c = '.' || c = '_'
        || c = '%' || c = '+' || c = '-'))
      (.seq (reChar '@')
        (.seq (rePlus (.cls fun c => c.isAlphanum || c = '.' || c = '-'))
          (.seq (reChar '.')
            (.seq (reReq (.cls Char.isAlpha) 2 (.star (.cls Char.isAlpha))) .wb))))))

/-- The replacement token. -/
def REDACTION_TOKEN : String := "[REDACTED]"

/-- The ordered pattern table of redact_sensitive. -/
def FAIRNESS_PATTERNS : List (String × RE) :=
  [("gender", GENDER_PAT), ("age", AGE_PAT), ("marital", MARITAL_PAT),
   ("religion", RELIGION_PAT), ("nationality", NATIONALITY_PAT),
   ("ethnicity", ETHNICITY_PAT), ("contact", CONTACT_PAT)]

/-- Embeds redact_sensitive: empty text short-circuits; otherwise each pattern
in order is searched on the current text and, when found, substituted out and
its category appended to the notes (joined by commas). -/
def redact_sensitive (text : String) : String × String :=
  if text = "" then ("", "")
  else
    let step := FAIRNESS_PATTERNS.foldl (fun acc np =>
      if reSearch np.2 acc.1 then
        (reSub np.2 REDACTION_TOKEN.data acc.1, acc.2 ++ [np.1])
      else acc) (text.data, ([] : List String))
    (⟨step.1⟩, String.intercalate "," step.2)

set_option maxRecDepth 8000 in
/-- Counterexample to C8: on the claimed input the redacted text still
contains the gender substring male (GENDER_PAT covers only pronouns and
titles), and the notes do not report the gender category. -/
theorem redaction_roundtrip_counterexample :
    strContains (redact_sensitive "25 years old male developer, email a@b.com").1
        "male" = true
    ∧ strContains (redact_sensitive "25 years old male developer, email a@b.com").2
        "gender" = false := by
  decide

set_option maxRecDepth 8000 in
/-- C8 as amended: redacting the claimed input removes the age substring and
the email substring and reports the age and contact categories, but the gender
substring male survives and gender is not reported: the output is exactly
male developer with the age and email redacted, with notes age,contact. -/
theorem redaction_partial_roundtrip :
    (redact_sensitive "25 years old male developer, email a@b.com").1
        = "[REDACTED] male developer, email [REDACTED]"
    ∧ (redact_sensitive "25 years old male developer, email a@b.com").2
        = "age,contact"
    ∧ strContains (redact_sensitive "25 years old male developer, email a@b.com").1
        "25 years old" = false
    ∧ strContains (redact_sensitive "25 years old male developer, email a@b.com").1
        "a@b.com" = false := by
  decide
